import Mathlib

/-!
Shallow embedding of the littlekv in-memory storage engine
(src/engine/src/memory_engine.rs, engine_interface.rs, error.rs).

Keys and values are byte sequences, modelled as lists of naturals.
The nested `HashMap<String, HashMap<Vec<u8>, Vec<u8>>>` is modelled as an
association list from table names to association lists from keys to values;
all operations below mirror the Rust functions line by line.
-/

namespace LittleKV

/-- A byte string (`Vec<u8>` / `&[u8]` in the source). -/
abbrev Bytes := List Nat

/-- The `EngineError` enumeration from src/engine/src/error.rs.
`KeyNotFound` carries the offending key; in the source the key bytes are
decoded to a `String` first (see `get` below for the decoding step). -/
inductive EngineError where
  | IoError (msg : String)
  | TableNotFound (table : String)
  | Corruption (descr : String)
  | InvalidArgument (descr : String)
  | UnderlyingDatabaseError (descr : String)
  | KeyNotFound (key : Bytes)
  deriving DecidableEq

/-- Outcome of running one engine call: `Ok`, `Err`, or a Rust panic
(the source can panic inside `String::from_utf8(..).unwrap()`). -/
inductive ExecResult (α : Type) where
  | ok (val : α)
  | err (e : EngineError)
  | panicked
  deriving DecidableEq

/-- Byte-slice comparison: `<[u8] as Ord>::cmp`, lexicographic. -/
def compareBytes : Bytes → Bytes → Ordering
  | [], [] => .eq
  | [], _ :: _ => .lt
  | _ :: _, [] => .gt
  | a :: as, b :: bs =>
    match compare a b with
    | .eq => compareBytes as bs
    | .lt => .lt
    | .gt => .gt

/-- One table's contents: `HashMap<Vec<u8>, Vec<u8>>` as an association list. -/
abbrev MemoryTable := List (Bytes × Bytes)

/-- `HashMap::get` on a table. -/
def tlookup : MemoryTable → Bytes → Option Bytes
  | [], _ => none
  | (k, v) :: rest, key => if k = key then some v else tlookup rest key

/-- `HashMap::remove` on a table: drop the binding of `key`, keep the rest. -/
def tableRemove : MemoryTable → Bytes → MemoryTable
  | [], _ => []
  | (k, v) :: rest, key =>
    if k = key then tableRemove rest key else (k, v) :: tableRemove rest key

/-- `HashMap::insert` on a table: the new binding replaces any old one. -/
def tableInsert (t : MemoryTable) (key value : Bytes) : MemoryTable :=
  (key, value) :: tableRemove t key

/-- The retain predicate of the `DeleteRange` arm of `write_batch`:
keep a key unless it compares `Greater` to `start_key` and `Less` to
`end_key` (both bounds strictly excluded). -/
def keepOutsideRange (start_key end_key k : Bytes) : Bool :=
  match compareBytes k start_key, compareBytes k end_key with
  | .gt, .lt => false
  | _, _ => true

/-- `HashMap::retain` with the `DeleteRange` closure. -/
def deleteRangeRetain (t : MemoryTable) (start_key end_key : Bytes) : MemoryTable :=
  t.filter (fun p => keepOutsideRange start_key end_key p.1)

/-- The engine's inner state: `HashMap<String, MemoryTable>`. -/
abbrev EngineState := List (String × MemoryTable)

/-- `HashMap::get` on the table registry. -/
def lookupTable : EngineState → String → Option MemoryTable
  | [], _ => none
  | (n, t) :: rest, table => if n = table then some t else lookupTable rest table

/-- In-place mutation through `HashMap::get_mut`: replace the stored table. -/
def updateTable : EngineState → String → MemoryTable → EngineState
  | [], _, _ => []
  | (n, t0) :: rest, table, t =>
    if n = table then (n, t) :: rest else (n, t0) :: updateTable rest table t

/-- `MemoryEngine::create_table`: `entry(table).or_insert(HashMap::new())`,
always returns `Ok(())`. -/
def create_table (s : EngineState) (table : String) : EngineState × Option EngineError :=
  match lookupTable s table with
  | some _ => (s, none)
  | none => (s ++ [(table, [])], none)

/-- `MemoryEngine::new`: pre-creates each listed table, always `Ok`. -/
def newEngine (tables : List String) : EngineState × Option EngineError :=
  (tables.foldl (fun s t => (create_table s t).1) [], none)

/-- Validity of a byte sequence as UTF-8, modelling the success condition of
Rust's `String::from_utf8` (the source calls `.unwrap()` on its result). -/
def validUtf8 : Bytes → Bool
  | [] => true
  | b :: rest =>
    if b ≤ 0x7F then validUtf8 rest
    else if 0xC2 ≤ b ∧ b ≤ 0xDF then
      match rest with
      | b1 :: rest1 => (0x80 ≤ b1 && b1 ≤ 0xBF) && validUtf8 rest1
      | [] => false
    else if b = 0xE0 then
      match rest with
      | b1 :: b2 :: rest2 =>
        (0xA0 ≤ b1 && b1 ≤ 0xBF) && (0x80 ≤ b2 && b2 ≤ 0xBF) && validUtf8 rest2
      | _ => false
    else if (0xE1 ≤ b ∧ b ≤ 0xEC) ∨ b = 0xEE ∨ b = 0xEF then
      match rest with
      | b1 :: b2 :: rest2 =>
        (0x80 ≤ b1 && b1 ≤ 0xBF) && (0x80 ≤ b2 && b2 ≤ 0xBF) && validUtf8 rest2
      | _ => false
    else if b = 0xED then
      match rest with
      | b1 :: b2 :: rest2 =>
        (0x80 ≤ b1 && b1 ≤ 0x9F) && (0x80 ≤ b2 && b2 ≤ 0xBF) && validUtf8 rest2
      | _ => false
    else if b = 0xF0 then
      match rest with
      | b1 :: b2 :: b3 :: rest3 =>
        (0x90 ≤ b1 && b1 ≤ 0xBF) && (0x80 ≤ b2 && b2 ≤ 0xBF) &&
          (0x80 ≤ b3 && b3 ≤ 0xBF) && validUtf8 rest3
      | _ => false
    else if 0xF1 ≤ b ∧ b ≤ 0xF3 then
      match rest with
      | b1 :: b2 :: b3 :: rest3 =>
        (0x80 ≤ b1 && b1 ≤ 0xBF) && (0x80 ≤ b2 && b2 ≤ 0xBF) &&
          (0x80 ≤ b3 && b3 ≤ 0xBF) && validUtf8 rest3
      | _ => false
    else if b = 0xF4 then
      match rest with
      | b1 :: b2 :: b3 :: rest3 =>
        (0x80 ≤ b1 && b1 ≤ 0x8F) && (0x80 ≤ b2 && b2 ≤ 0xBF) &&
          (0x80 ≤ b3 && b3 ≤ 0xBF) && validUtf8 rest3
      | _ => false
    else false

/-- `MemoryEngine::get`. The success value is always `some`; a missing key
builds `KeyNotFound` through `String::from_utf8(key).unwrap()`, which
panics when the key is not valid UTF-8. -/
def get (s : EngineState) (table : String) (key : Bytes) : ExecResult (Option Bytes) :=
  match lookupTable s table with
  | none => .err (.TableNotFound table)
  | some t =>
    match tlookup t key with
    | none => if validUtf8 key then .err (.KeyNotFound key) else .panicked
    | some v => .ok (some v)

/-- `MemoryEngine::get_multi`: one `Option` slot per input key, in order. -/
def get_multi (s : EngineState) (table : String) (keys : List Bytes) :
    ExecResult (List (Option Bytes)) :=
  match lookupTable s table with
  | none => .err (.TableNotFound table)
  | some t => .ok (keys.map (fun k => tlookup t k))

/-- `WriteOperation` from src/engine/src/engine_interface.rs. -/
inductive WriteOperation where
  | Put (table : String) (key : Bytes) (value : Bytes) (sync : Bool)
  | Delete (table : String) (key : Bytes) (sync : Bool)
  | DeleteRange (table : String) (start_key : Bytes) (end_key : Bytes) (sync : Bool)

/-- The table a write operation refers to. -/
def WriteOperation.table : WriteOperation → String
  | .Put table _ _ _ => table
  | .Delete table _ _ => table
  | .DeleteRange table _ _ _ => table

/-- One arm of the `for op in wr_ops` loop of `MemoryEngine::write_batch`:
returns the mutated state and the error of the `?` operator, if any. -/
def applyOp (s : EngineState) (op : WriteOperation) : EngineState × Option EngineError :=
  match op with
  | .Put table key value _ =>
    match lookupTable s table with
    | none => (s, some (.TableNotFound table))
    | some t => (updateTable s table (tableInsert t key value), none)
  | .Delete table key _ =>
    match lookupTable s table with
    | none => (s, some (.TableNotFound table))
    | some t => (updateTable s table (tableRemove t key), none)
  | .DeleteRange table start_key end_key _ =>
    match lookupTable s table with
    | none => (s, some (.TableNotFound table))
    | some t => (updateTable s table (deleteRangeRetain t start_key end_key), none)

/-- `MemoryEngine::write_batch`: applies the operations in sequence order,
stopping at the first failing one; mutations already made stay. -/
def write_batch (s : EngineState) (ops : List WriteOperation) : EngineState × Option EngineError :=
  match ops with
  | [] => (s, none)
  | op :: rest =>
    match applyOp s op with
    | (s1, none) => write_batch s1 rest
    | (s1, some e) => (s1, some e)

/-! Helper lemmas about the embedded operations. -/

theorem lookupTable_updateTable_self (s : EngineState) (table : String) (tn : MemoryTable)
    (h : (lookupTable s table).isSome) :
    lookupTable (updateTable s table tn) table = some tn := by
  induction s with
  | nil => simp [lookupTable] at h
  | cons p rest ih =>
    obtain ⟨n, t0⟩ := p
    by_cases hn : n = table
    · subst hn
      simp [lookupTable, updateTable]
    · simp only [lookupTable, updateTable, if_neg hn] at h ⊢
      exact ih h

theorem updateTable_self (s : EngineState) (table : String) (t : MemoryTable)
    (h : lookupTable s table = some t) :
    updateTable s table t = s := by
  induction s with
  | nil => simp [lookupTable] at h
  | cons p rest ih =>
    obtain ⟨n, t0⟩ := p
    by_cases hn : n = table
    · subst hn
      simp [lookupTable] at h
      simp [updateTable, h]
    · simp only [lookupTable, if_neg hn] at h
      simp [updateTable, hn, ih h]

theorem tlookup_filter (q : Bytes → Bool) (t : MemoryTable) (key : Bytes) :
    tlookup (t.filter (fun p => q p.1)) key = if q key then tlookup t key else none := by
  induction t with
  | nil => simp [tlookup]
  | cons p rest ih =>
    obtain ⟨k0, v0⟩ := p
    by_cases hq : q k0
    · rw [List.filter_cons_of_pos (by simpa using hq)]
      by_cases hk : k0 = key
      · subst hk
        simp [tlookup, hq]
      · simp [tlookup, hk, ih]
    · rw [List.filter_cons_of_neg (by simpa using hq)]
      by_cases hk : k0 = key
      · subst hk
        simp [tlookup, ih, hq]
      · simp [tlookup, hk, ih]

theorem tlookup_eq_none_iff (t : MemoryTable) (key : Bytes) :
    tlookup t key = none ↔ ∀ p ∈ t, p.1 ≠ key := by
  induction t with
  | nil => simp [tlookup]
  | cons p rest ih =>
    obtain ⟨k0, v0⟩ := p
    by_cases hk : k0 = key
    · subst hk
      simp [tlookup]
    · simp [tlookup, hk, ih]

theorem compareBytes_eq_iff (a b : Bytes) : compareBytes a b = .eq ↔ a = b := by
  induction a generalizing b with
  | nil => cases b <;> simp [compareBytes]
  | cons x xs ih =>
    cases b with
    | nil => simp [compareBytes]
    | cons y ys =>
      simp only [compareBytes]
      cases h : compare x y with
      | lt =>
        have hxy : x < y := Nat.compare_eq_lt.mp h
        simp only [List.cons.injEq]
        constructor
        · intro hc
          exact absurd hc (by simp)
        · rintro ⟨rfl, -⟩
          omega
      | eq =>
        have hxy : x = y := Nat.compare_eq_eq.mp h
        simp [hxy, ih]
      | gt =>
        have hxy : y < x := Nat.compare_eq_gt.mp h
        simp only [List.cons.injEq]
        constructor
        · intro hc
          exact absurd hc (by simp)
        · rintro ⟨rfl, -⟩
          omega

theorem compareBytes_gt_iff (a b : Bytes) : compareBytes a b = .gt ↔ compareBytes b a = .lt := by
  induction a generalizing b with
  | nil => cases b <;> simp [compareBytes]
  | cons x xs ih =>
    cases b with
    | nil => simp [compareBytes]
    | cons y ys =>
      simp only [compareBytes]
      cases h : compare x y with
      | lt =>
        have hyx : compare y x = .gt := Nat.compare_eq_gt.mpr (Nat.compare_eq_lt.mp h)
        simp [hyx]
      | eq =>
        have hxy : x = y := Nat.compare_eq_eq.mp h
        subst hxy
        have hxx : compare x x = .eq := Nat.compare_eq_eq.mpr rfl
        simp [hxx, ih]
      | gt =>
        have hyx : compare y x = .lt := Nat.compare_eq_lt.mpr (Nat.compare_eq_gt.mp h)
        simp [hyx]

theorem compareBytes_lt_trans (a b c : Bytes) (h1 : compareBytes a b = .lt)
    (h2 : compareBytes b c = .lt) : compareBytes a c = .lt := by
  induction a generalizing b c with
  | nil =>
    cases b with
    | nil => simp [compareBytes] at h1
    | cons y ys =>
      cases c with
      | nil => simp [compareBytes] at h2
      | cons z zs => simp [compareBytes]
  | cons x xs ih =>
    cases b with
    | nil => simp [compareBytes] at h1
    | cons y ys =>
      cases c with
      | nil => simp [compareBytes] at h2
      | cons z zs =>
        simp only [compareBytes] at h1 h2 ⊢
        cases hxy : compare x y with
        | gt => simp [hxy] at h1
        | lt =>
          have hlt : x < y := Nat.compare_eq_lt.mp hxy
          cases hyz : compare y z with
          | gt => simp [hyz] at h2
          | lt =>
            have : x < z := lt_trans hlt (Nat.compare_eq_lt.mp hyz)
            simp [Nat.compare_eq_lt.mpr this]
          | eq =>
            have : x < z := (Nat.compare_eq_eq.mp hyz) ▸ hlt
            simp [Nat.compare_eq_lt.mpr this]
        | eq =>
          have heq : x = y := Nat.compare_eq_eq.mp hxy
          rw [hxy] at h1
          cases hyz : compare y z with
          | gt => simp [hyz] at h2
          | lt =>
            have : x < z := heq ▸ Nat.compare_eq_lt.mp hyz
            simp [Nat.compare_eq_lt.mpr this]
          | eq =>
            rw [hyz] at h2
            have hxz : x = z := heq.trans (Nat.compare_eq_eq.mp hyz)
            rw [Nat.compare_eq_eq.mpr hxz]
            exact ih ys zs h1 h2

theorem keepOutsideRange_eq_false_iff (a b k : Bytes) :
    keepOutsideRange a b k = false ↔
      compareBytes k a = .gt ∧ compareBytes k b = .lt := by
  unfold keepOutsideRange
  cases h1 : compareBytes k a <;> cases h2 : compareBytes k b <;> simp

theorem write_batch_append (s : EngineState) (l1 l2 : List WriteOperation) :
    write_batch s (l1 ++ l2) =
      match write_batch s l1 with
      | (s1, none) => write_batch s1 l2
      | (s1, some e) => (s1, some e) := by
  induction l1 generalizing s with
  | nil => simp [write_batch]
  | cons op rest ih =>
    simp only [List.cons_append, write_batch]
    rcases h : applyOp s op with ⟨s1, _ | e⟩
    · simp [ih]
    · simp

theorem applyOp_table_missing (s : EngineState) (op : WriteOperation)
    (h : lookupTable s op.table = none) :
    applyOp s op = (s, some (.TableNotFound op.table)) := by
  cases op with
  | Put table key value sync =>
    simp only [WriteOperation.table] at h
    simp [applyOp, h, WriteOperation.table]
  | Delete table key sync =>
    simp only [WriteOperation.table] at h
    simp [applyOp, h, WriteOperation.table]
  | DeleteRange table start_key end_key sync =>
    simp only [WriteOperation.table] at h
    simp [applyOp, h, WriteOperation.table]

theorem tlookup_tableRemove (t : MemoryTable) (key k : Bytes) :
    tlookup (tableRemove t key) k = if k = key then none else tlookup t k := by
  induction t with
  | nil => simp [tableRemove, tlookup]
  | cons p rest ih =>
    obtain ⟨k0, v0⟩ := p
    by_cases hk0 : k0 = key
    · subst hk0
      by_cases hk : k = k0
      · subst hk
        simp [tableRemove, ih]
      · have hk2 : ¬k0 = k := fun h => hk h.symm
        simp [tableRemove, tlookup, hk2, ih, hk]
    · by_cases hk : k0 = k
      · subst hk
        simp [tableRemove, tlookup, hk0]
      · simp [tableRemove, tlookup, hk0, hk, ih]

theorem tableRemove_of_absent (t : MemoryTable) (key : Bytes)
    (h : tlookup t key = none) : tableRemove t key = t := by
  induction t with
  | nil => simp [tableRemove]
  | cons p rest ih =>
    obtain ⟨k0, v0⟩ := p
    by_cases hk0 : k0 = key
    · subst hk0
      simp [tlookup] at h
    · simp only [tlookup, if_neg hk0] at h
      simp [tableRemove, hk0, ih h]

theorem tlookup_tableInsert (t : MemoryTable) (key k v : Bytes) :
    tlookup (tableInsert t key v) k = if k = key then some v else tlookup t k := by
  by_cases hk : k = key
  · subst hk
    simp [tableInsert, tlookup]
  · have hk2 : ¬key = k := fun h => hk h.symm
    simp only [tableInsert, tlookup, if_neg hk2, if_neg hk]
    rw [tlookup_tableRemove]
    simp [hk]

theorem lookupTable_append_of_none (s l2 : EngineState) (n : String)
    (h : lookupTable s n = none) :
    lookupTable (s ++ l2) n = lookupTable l2 n := by
  induction s with
  | nil => simp
  | cons p rest ih =>
    obtain ⟨m, t⟩ := p
    by_cases hm : m = n
    · simp [lookupTable, hm] at h
    · simp only [lookupTable, if_neg hm] at h
      simp [lookupTable, hm, ih h]

/-! Claim theorems. -/

/-- C1 counterexample: on the table holding the 2-byte keys 0001, 0101, 0202,
0303, 0505, a delete-range with start=0202, end=0505 succeeds but the key
0202 — equal to the start key — is still present afterwards with its old
value, so the claimed inclusive-start semantics is false on the code. -/
theorem delete_range_start_key_remains :
    (write_batch
        [("t", [([0,1],[10]), ([1,1],[11]), ([2,2],[12]), ([3,3],[13]), ([5,5],[15])])]
        [.DeleteRange "t" [2,2] [5,5] false]).2 = none ∧
      get (write_batch
        [("t", [([0,1],[10]), ([1,1],[11]), ([2,2],[12]), ([3,3],[13]), ([5,5],[15])])]
        [.DeleteRange "t" [2,2] [5,5] false]).1 "t" [2,2] = .ok (some [12]) := by
  decide

/-- C1 (corrected): the delete-range on the 2-byte keys 0001, 0101, 0202,
0303, 0505 with start=0202, end=0505 removes exactly the keys strictly
between the bounds — only 0303 — and leaves 0001, 0101, 0202 and 0505 with
their values; both a key equal to start and a key equal to end remain. -/
theorem delete_range_example_strict_bounds :
    write_batch
        [("t", [([0,1],[10]), ([1,1],[11]), ([2,2],[12]), ([3,3],[13]), ([5,5],[15])])]
        [.DeleteRange "t" [2,2] [5,5] false] =
      ([("t", [([0,1],[10]), ([1,1],[11]), ([2,2],[12]), ([5,5],[15])])], none) := by
  decide

/-- C2: on an existing table, a `DeleteRange(start, end)` in a `write_batch`
succeeds and removes exactly the keys `k` with `start < k < end` under
byte-lexicographic comparison (both bounds strictly excluded); every other
key, including keys equal to either bound, keeps its value. -/
theorem delete_range_strict_spec (s : EngineState) (table : String) (a b : Bytes)
    (t : MemoryTable) (sync : Bool) (h : lookupTable s table = some t) :
    ∃ t2, write_batch s [.DeleteRange table a b sync] = (updateTable s table t2, none) ∧
      lookupTable (updateTable s table t2) table = some t2 ∧
      ∀ k, tlookup t2 k =
        if compareBytes k a = .gt ∧ compareBytes k b = .lt then none else tlookup t k := by
  refine ⟨deleteRangeRetain t a b, ?_, ?_, ?_⟩
  · simp [write_batch, applyOp, h]
  · exact lookupTable_updateTable_self s table _ (by simp [h])
  · intro k
    rw [deleteRangeRetain, tlookup_filter (keepOutsideRange a b) t k]
    by_cases hin : compareBytes k a = .gt ∧ compareBytes k b = .lt
    · have hkp : keepOutsideRange a b k = false :=
        (keepOutsideRange_eq_false_iff a b k).mpr hin
      simp [hkp, hin]
    · have hkp : keepOutsideRange a b k = true := by
        cases hq : keepOutsideRange a b k
        · exact absurd ((keepOutsideRange_eq_false_iff a b k).mp hq) hin
        · rfl
      simp [hkp, hin]

/-- Witness for C2: concrete three-key table, range ]`[1]`, `[3]`[. -/
theorem delete_range_strict_spec_witness :
    ∃ t2, write_batch [("t", [([1],[9]), ([2],[8]), ([3],[7])])]
          [.DeleteRange "t" [1] [3] false] =
        (updateTable [("t", [([1],[9]), ([2],[8]), ([3],[7])])] "t" t2, none) ∧
      lookupTable (updateTable [("t", [([1],[9]), ([2],[8]), ([3],[7])])] "t" t2) "t" =
        some t2 ∧
      ∀ k, tlookup t2 k =
        if compareBytes k [1] = .gt ∧ compareBytes k [3] = .lt then none
        else tlookup [([1],[9]), ([2],[8]), ([3],[7])] k :=
  delete_range_strict_spec [("t", [([1],[9]), ([2],[8]), ([3],[7])])] "t" [1] [3]
    [([1],[9]), ([2],[8]), ([3],[7])] false rfl

/-- C3 counterexample: with table "t" existing and the single-byte key 255
absent from it, `get` does not return `KeyNotFound` — it panics inside
`String::from_utf8(..).unwrap()` because the key is not valid UTF-8. -/
theorem get_missing_key_not_keynotfound :
    get [("t", [([97], [1])])] "t" [255] = ExecResult.panicked ∧
      get [("t", [([97], [1])])] "t" [255] ≠ .err (.KeyNotFound [255]) := by
  decide

/-- C3 (corrected): `get` returns `TableNotFound` when the table is missing;
for an existing table it returns `KeyNotFound` on an absent key provided the
key bytes are valid UTF-8 (otherwise the error construction panics), returns
`Ok(Some v)` on a present key, and never returns `Ok(None)`. -/
theorem get_spec (s : EngineState) (table : String) (key : Bytes) :
    (lookupTable s table = none → get s table key = .err (.TableNotFound table)) ∧
    (∀ t, lookupTable s table = some t → tlookup t key = none → validUtf8 key = true →
      get s table key = .err (.KeyNotFound key)) ∧
    (∀ t v, lookupTable s table = some t → tlookup t key = some v →
      get s table key = .ok (some v)) ∧
    get s table key ≠ .ok none := by
  refine ⟨?_, ?_, ?_, ?_⟩
  · intro h
    simp [get, h]
  · intro t h1 h2 h3
    simp [get, h1, h2, h3]
  · intro t v h1 h2
    simp [get, h1, h2]
  · unfold get
    cases h1 : lookupTable s table with
    | none => simp
    | some t =>
      cases h2 : tlookup t key with
      | none =>
        by_cases h3 : validUtf8 key <;> simp [h2, h3]
      | some v => simp [h2]

/-- Witness for C3: existing table, absent UTF-8 key `[98]` yields
`KeyNotFound`. -/
theorem get_spec_witness :
    get [("t", [([97], [1])])] "t" [98] = .err (.KeyNotFound [98]) :=
  (get_spec [("t", [([97], [1])])] "t" [98]).2.1 [([97], [1])] rfl rfl rfl

/-- C4: `get_multi` fails wholesale with `TableNotFound` on a missing table;
on an existing table it returns `Ok` with exactly one slot per input key in
input order (`Some v` for a present key, `None` for an absent one), and it
never returns `KeyNotFound`. -/
theorem get_multi_spec (s : EngineState) (table : String) (keys : List Bytes) :
    (lookupTable s table = none → get_multi s table keys = .err (.TableNotFound table)) ∧
    (∀ t, lookupTable s table = some t →
      ∃ res, get_multi s table keys = .ok res ∧ res.length = keys.length ∧
        ∀ i : Nat, res[i]? = (keys[i]?).map (fun k => tlookup t k)) ∧
    ∀ k, get_multi s table keys ≠ .err (.KeyNotFound k) := by
  refine ⟨?_, ?_, ?_⟩
  · intro h
    simp [get_multi, h]
  · intro t h
    refine ⟨keys.map (fun k => tlookup t k), by simp [get_multi, h], by simp, ?_⟩
    intro i
    simp
  · intro k
    unfold get_multi
    cases h : lookupTable s table <;> simp

/-- Witness for C4: two keys, one present and one absent. -/
theorem get_multi_spec_witness :
    ∃ res, get_multi [("t", [([1], [7])])] "t" [[1], [2]] = .ok res ∧
      res.length = ([[1], [2]] : List Bytes).length ∧
      ∀ i : Nat, res[i]? =
        (([[1], [2]] : List Bytes)[i]?).map (fun k => tlookup [([1], [7])] k) :=
  (get_multi_spec [("t", [([1], [7])])] "t" [[1], [2]]).2.1 [([1], [7])] rfl

/-- C5: operations of a batch are applied one at a time in sequence order;
when an operation references a non-existent table, every earlier operation
stays applied (the state is the one reached after the prefix), the failing
operation and everything after it are not applied, and the batch returns
the `TableNotFound` error. -/
theorem write_batch_partial_application (s : EngineState) (pre post : List WriteOperation)
    (op : WriteOperation) (s1 : EngineState)
    (hpre : write_batch s pre = (s1, none))
    (hmiss : lookupTable s1 op.table = none) :
    write_batch s (pre ++ op :: post) = (s1, some (.TableNotFound op.table)) := by
  rw [write_batch_append, hpre]
  simp only [write_batch, applyOp_table_missing s1 op hmiss]

/-- Witness for C5: the put into the missing table "u" aborts the batch,
keeping the earlier put into "t" and skipping the later one. -/
theorem write_batch_partial_application_witness :
    write_batch [("t", [])]
        ([WriteOperation.Put "t" [1] [2] false] ++
          WriteOperation.Put "u" [9] [9] false :: [WriteOperation.Put "t" [3] [4] false]) =
      ([("t", [([1], [2])])], some (.TableNotFound "u")) :=
  write_batch_partial_application [("t", [])] [WriteOperation.Put "t" [1] [2] false]
    [WriteOperation.Put "t" [3] [4] false] (WriteOperation.Put "u" [9] [9] false)
    [("t", [([1], [2])])] (by decide) (by decide)

/-- C6: the claim that no engine operation ever panics fails on the code:
calling `get` on an existing table with the absent key `[200]` — not valid
UTF-8 — reaches `String::from_utf8(key).unwrap()` and panics instead of
returning a typed error. -/
theorem get_panics_on_non_utf8_key :
    get [("t", [([97], [1])])] "t" [200] = ExecResult.panicked := by
  decide

/-- C7: `create_table` is idempotent: on a name whose table already exists it
returns `Ok` and leaves the whole engine state (that table's contents and
every other table) exactly unchanged, it always returns `Ok`, and calling it
twice in a row equals calling it once. -/
theorem create_table_idempotent (s : EngineState) (table : String) :
    (∀ t, lookupTable s table = some t → create_table s table = (s, none)) ∧
    (create_table s table).2 = none ∧
    create_table (create_table s table).1 table = create_table s table := by
  refine ⟨?_, ?_, ?_⟩
  · intro t h
    simp [create_table, h]
  · unfold create_table
    cases h : lookupTable s table <;> simp
  · cases h : lookupTable s table with
    | some t =>
      have h1 : create_table s table = (s, none) := by simp [create_table, h]
      rw [h1]
      exact h1
    | none =>
      have h1 : create_table s table = (s ++ [(table, [])], none) := by
        simp [create_table, h]
      have h2 : lookupTable (s ++ [(table, [])]) table = some [] := by
        rw [lookupTable_append_of_none s _ table h]
        simp [lookupTable]
      rw [h1]
      simp [create_table, h2]

/-- Witness for C7: re-creating the existing table "t" changes nothing. -/
theorem create_table_idempotent_witness :
    create_table [("t", [([1], [2])])] "t" = ([("t", [([1], [2])])], none) :=
  (create_table_idempotent [("t", [([1], [2])])] "t").1 [([1], [2])] rfl

/-- C8: deleting an absent key from an existing table is a silent no-op: the
batch returns `Ok` and the whole engine state is exactly unchanged. -/
theorem delete_absent_key_noop (s : EngineState) (table : String) (key : Bytes)
    (t : MemoryTable) (h1 : lookupTable s table = some t) (h2 : tlookup t key = none) :
    write_batch s [.Delete table key false] = (s, none) := by
  simp [write_batch, applyOp, h1, tableRemove_of_absent t key h2,
    updateTable_self s table t h1]

/-- Witness for C8: deleting the absent key `[9]` leaves the state intact. -/
theorem delete_absent_key_noop_witness :
    write_batch [("t", [([1], [2])])] [.Delete "t" [9] false] =
      ([("t", [([1], [2])])], none) :=
  delete_absent_key_noop [("t", [([1], [2])])] "t" [9] [([1], [2])] rfl rfl

/-- C9: within one batch on an existing table the operations take effect in
sequence order: `[Put(k,v1), Put(k,v2)]` leaves `k` mapped to `v2`, and
`[Put(k,v1), Delete(k)]` leaves `k` absent; both batches return `Ok`. -/
theorem write_batch_sequence_order (s : EngineState) (table : String) (k v1 v2 : Bytes)
    (t : MemoryTable) (h : lookupTable s table = some t) :
    ((write_batch s [.Put table k v1 false, .Put table k v2 false]).2 = none ∧
      ∃ t2, lookupTable (write_batch s [.Put table k v1 false, .Put table k v2 false]).1
          table = some t2 ∧ tlookup t2 k = some v2) ∧
    ((write_batch s [.Put table k v1 false, .Delete table k false]).2 = none ∧
      ∃ t3, lookupTable (write_batch s [.Put table k v1 false, .Delete table k false]).1
          table = some t3 ∧ tlookup t3 k = none) := by
  have hs1 : lookupTable (updateTable s table (tableInsert t k v1)) table =
      some (tableInsert t k v1) :=
    lookupTable_updateTable_self s table _ (by simp [h])
  constructor
  · have hw : write_batch s [.Put table k v1 false, .Put table k v2 false] =
        (updateTable (updateTable s table (tableInsert t k v1)) table
          (tableInsert (tableInsert t k v1) k v2), none) := by
      simp [write_batch, applyOp, h, hs1]
    rw [hw]
    refine ⟨rfl, tableInsert (tableInsert t k v1) k v2, ?_, ?_⟩
    · exact lookupTable_updateTable_self _ table _ (by simp [hs1])
    · rw [tlookup_tableInsert]
      simp
  · have hw : write_batch s [.Put table k v1 false, .Delete table k false] =
        (updateTable (updateTable s table (tableInsert t k v1)) table
          (tableRemove (tableInsert t k v1) k), none) := by
      simp [write_batch, applyOp, h, hs1]
    rw [hw]
    refine ⟨rfl, tableRemove (tableInsert t k v1) k, ?_, ?_⟩
    · exact lookupTable_updateTable_self _ table _ (by simp [hs1])
    · rw [tlookup_tableRemove]
      simp

/-- Witness for C9: concrete batches on a one-table engine. -/
theorem write_batch_sequence_order_witness :
    ((write_batch [("t", [])] [.Put "t" [1] [5] false, .Put "t" [1] [6] false]).2 = none ∧
      ∃ t2, lookupTable
          (write_batch [("t", [])] [.Put "t" [1] [5] false, .Put "t" [1] [6] false]).1
          "t" = some t2 ∧ tlookup t2 [1] = some [6]) ∧
    ((write_batch [("t", [])] [.Put "t" [1] [5] false, .Delete "t" [1] false]).2 = none ∧
      ∃ t3, lookupTable
          (write_batch [("t", [])] [.Put "t" [1] [5] false, .Delete "t" [1] false]).1
          "t" = some t3 ∧ tlookup t3 [1] = none) :=
  write_batch_sequence_order [("t", [])] "t" [1] [5] [6] [] rfl

/-- C10: a `DeleteRange` whose start key is byte-lexicographically greater
than or equal to its end key is accepted on an existing table: the batch
returns `Ok` (in particular never `InvalidArgument`), removes no key, and
leaves the engine state exactly unchanged. -/
theorem delete_range_empty_noop (s : EngineState) (table : String) (a b : Bytes)
    (t : MemoryTable) (sync : Bool) (h1 : lookupTable s table = some t)
    (h2 : compareBytes a b ≠ .lt) :
    write_batch s [.DeleteRange table a b sync] = (s, none) := by
  have hret : deleteRangeRetain t a b = t := by
    unfold deleteRangeRetain
    rw [List.filter_eq_self]
    intro p hp
    cases hkp : keepOutsideRange a b p.1
    · obtain ⟨hga, hlb⟩ := (keepOutsideRange_eq_false_iff a b p.1).mp hkp
      exact absurd (compareBytes_lt_trans a p.1 b ((compareBytes_gt_iff p.1 a).mp hga) hlb) h2
    · rfl
  simp [write_batch, applyOp, h1, hret, updateTable_self s table t h1]

/-- Witness for C10: an empty range with start = end = `[5]` is a no-op. -/
theorem delete_range_empty_noop_witness :
    write_batch [("t", [([3], [1])])] [.DeleteRange "t" [5] [5] true] =
      ([("t", [([3], [1])])], none) :=
  delete_range_empty_noop [("t", [([3], [1])])] "t" [5] [5] [([3], [1])] true rfl
    (by decide)

end LittleKV
